import Mathlib

/-!
Verification of the segmentation and checklist-aggregation logic of the
DPDPA compliance-checker repository (src/app_run.py and src/app.py).

Text is modelled as `List Char`.  The Python string primitives used by the
source (`str.splitlines`, `str.strip`, `' '.join`) and the heading regex
`^([A-Z][A-Za-z\s]+|[0-9]+\.\s.*)$` are embedded as executable functions
below.  The aggregator `compile_summary` is embedded over an insertion-order
association list, mirroring a Python `dict`; the `KeyError` a dict lookup can
raise is modelled with `Except`.
-/

/-- Whitespace characters as recognised by Python's `str.strip` / regex `\s`
(Unicode: ASCII whitespace, the file/group/record/unit separators, NEL,
and the Unicode space-separator category). -/
def pyIsSpace (c : Char) : Bool :=
  c == ' ' || c == '\t' || c == '\n' || c == '\r' ||
  c == Char.ofNat 0x0b || c == Char.ofNat 0x0c ||
  c == Char.ofNat 0x1c || c == Char.ofNat 0x1d ||
  c == Char.ofNat 0x1e || c == Char.ofNat 0x1f ||
  c == Char.ofNat 0x85 || c == Char.ofNat 0xa0 ||
  c == Char.ofNat 0x1680 ||
  (0x2000 ≤ c.toNat && c.toNat ≤ 0x200a) ||
  c == Char.ofNat 0x2028 || c == Char.ofNat 0x2029 ||
  c == Char.ofNat 0x202f || c == Char.ofNat 0x205f ||
  c == Char.ofNat 0x3000

/-- Line-boundary characters of Python's `str.splitlines` (other than the
two-character boundary CRLF, handled separately). -/
def isLineBreak (c : Char) : Bool :=
  c == '\n' || c == '\r' ||
  c == Char.ofNat 0x0b || c == Char.ofNat 0x0c ||
  c == Char.ofNat 0x1c || c == Char.ofNat 0x1d ||
  c == Char.ofNat 0x1e || c == Char.ofNat 0x85 ||
  c == Char.ofNat 0x2028 || c == Char.ofNat 0x2029

/-- ASCII uppercase letter, the regex class `[A-Z]`. -/
def isUpperAZ (c : Char) : Bool := 'A' ≤ c && c ≤ 'Z'

/-- ASCII letter, the regex class `[A-Za-z]`. -/
def isAlphaAZaz (c : Char) : Bool := isUpperAZ c || ('a' ≤ c && c ≤ 'z')

/-- ASCII digit, the regex class `[0-9]`. -/
def isDigit09 (c : Char) : Bool := '0' ≤ c && c ≤ '9'

/-- Accumulator-style worker for `pySplitlines`; `cur` holds the current
line reversed.  A CRLF pair counts as a single boundary; a trailing
unterminated line is emitted only when non-empty, matching Python. -/
def pySplitlinesAux : List Char → List Char → List (List Char)
  | cur, [] => if cur.isEmpty then [] else [cur.reverse]
  | cur, '\r' :: '\n' :: rest => cur.reverse :: pySplitlinesAux [] rest
  | cur, c :: rest =>
    if isLineBreak c then cur.reverse :: pySplitlinesAux [] rest
    else pySplitlinesAux (c :: cur) rest

/-- Python `text.splitlines()`. -/
def pySplitlines (text : List Char) : List (List Char) :=
  pySplitlinesAux [] text

/-- Python `s.strip()`: drop whitespace from both ends. -/
def pyStrip (s : List Char) : List Char :=
  (((s.dropWhile pyIsSpace).reverse).dropWhile pyIsSpace).reverse

/-- Python `' '.join(parts)`. -/
def pyJoinSp : List (List Char) → List Char
  | [] => []
  | [x] => x
  | x :: y :: xs => x ++ ' ' :: pyJoinSp (y :: xs)

/-- First alternative of the heading regex, `[A-Z][A-Za-z\s]+` anchored on
both sides: an ASCII uppercase letter followed by one or more characters,
each an ASCII letter or whitespace. -/
def regexAltA (s : List Char) : Bool :=
  match s with
  | [] => false
  | c :: rest =>
    isUpperAZ c && !rest.isEmpty && rest.all (fun d => isAlphaAZaz d || pyIsSpace d)

/-- Second alternative of the heading regex, `[0-9]+\.\s.*` anchored at the
start: one or more digits, a literal period, a whitespace character, then
anything.  Because the character after the greedy digit run must be the
literal `.`, the regex (with backtracking) matches exactly when the maximal
digit prefix is non-empty and is followed by `.` and a whitespace character;
the trailing `.*$` always matches because the argument is a stripped line,
which contains no line-break characters. -/
def regexAltB (s : List Char) : Bool :=
  !(s.takeWhile isDigit09).isEmpty &&
  (match s.dropWhile isDigit09 with
   | a :: c :: _ => a == '.' && pyIsSpace c
   | _ => false)

/-- `re.match(r'^([A-Z][A-Za-z\s]+|[0-9]+\.\s.*)$', stripped)` viewed as a
boolean predicate on the stripped line (app_run.py line 27). -/
def isHeadingLine (s : List Char) : Bool := regexAltA s || regexAltB s

/-- Python `' '.join(current_block).strip()`. -/
def joinBlock (blk : List (List Char)) : List Char :=
  pyStrip (pyJoinSp blk)

/-- The loop body of `break_into_blocks` (app_run.py lines 23-35): `cur` is
`current_block`.  Blank lines are skipped; a heading line closes any
accumulated block and starts a new one; other lines are appended; a final
non-empty block is emitted at end of input. -/
def blocksAux : List (List Char) → List (List Char) → List (List Char)
  | [], cur => if cur.isEmpty then [] else [joinBlock cur]
  | line :: rest, cur =>
    if (pyStrip line).isEmpty then blocksAux rest cur
    else if isHeadingLine (pyStrip line) then
      (if cur.isEmpty then blocksAux rest [pyStrip line]
       else joinBlock cur :: blocksAux rest [pyStrip line])
    else blocksAux rest (cur ++ [pyStrip line])

/-- `break_into_blocks` (app_run.py lines 20-36). -/
def break_into_blocks (text : List Char) : List (List Char) :=
  blocksAux (pySplitlines text) []

/-- The stripped non-blank lines of a line list, in order: the material
`break_into_blocks` distributes into blocks. -/
def goodStrips (lines : List (List Char)) : List (List Char) :=
  (lines.map pyStrip).filter (fun l => !l.isEmpty)

/-- A checklist entry (`section_4_checklist` element, app_run.py 12-17). -/
structure ChecklistItem where
  id : String
  text : String
deriving DecidableEq, Repr

/-- One record of a `Matched Blocks` list (app_run.py lines 113-117). -/
structure MatchedBlock where
  blockId : String
  status : String
  justification : String
deriving DecidableEq, Repr

/-- The per-item summary value held in the `summary` dict
(app_run.py lines 99-103). -/
structure SummaryInfo where
  itemId : String
  finalStatus : String
  matchedBlocks : List MatchedBlock
deriving DecidableEq, Repr

/-- One entry of a block's `Checklist Evaluation` array.  `Status` is kept
as a raw string, as it arrives from parsed JSON; `justification = none`
models an absent `Justification` key (`item.get("Justification", "")`). -/
structure ItemStatusR where
  itemId : String
  status : String
  justification : Option String
deriving DecidableEq, Repr

/-- One parsed block result: `block_id` plus its `Checklist Evaluation`. -/
structure BlockResult where
  blockId : String
  evaluation : List ItemStatusR
deriving DecidableEq, Repr

/-- The `summary` dict: an insertion-ordered association list, as a Python
dict presents itself under insertion and `.values()`. -/
abbrev SummaryDict := List (String × SummaryInfo)

/-- Membership test for a dict key. -/
def containsKey (d : SummaryDict) (k : String) : Bool :=
  d.any (fun p => p.1 == k)

/-- Python `d[k] = v` on an insertion-ordered dict: overwrite in place if
the key is present, otherwise append at the end. -/
def dictInsert (d : SummaryDict) (k : String) (v : SummaryInfo) : SummaryDict :=
  if containsKey d k then d.map (fun p => if p.1 == k then (k, v) else p)
  else d ++ [(k, v)]

/-- The initialisation loop of `compile_summary` (app_run.py lines 98-103):
one `Missing` summary per checklist item. -/
def initDict (checklist : List ChecklistItem) : SummaryDict :=
  checklist.foldl (fun d item => dictInsert d item.id ⟨item.id, "Missing", []⟩) []

/-- The record appended to `Matched Blocks` (app_run.py lines 112-117);
a missing justification defaults to the empty string. -/
def mkRecord (blockId : String) (it : ItemStatusR) : MatchedBlock :=
  ⟨blockId, it.status, it.justification.getD ""⟩

/-- One iteration of the inner merge loop (app_run.py lines 107-117).
An entry with status `"Missing"` is skipped before any dict lookup; any
other status triggers `summary[item_id]`, which raises `KeyError` when the
id is unknown — modelled as `Except.error`.  On a known key the record is
appended to that key's `Matched Blocks` (keys are unique, so the map
touches exactly the looked-up entry). -/
def mergeItem (blockId : String) (d : SummaryDict) (it : ItemStatusR) :
    Except String SummaryDict :=
  if it.status == "Missing" then .ok d
  else if containsKey d it.itemId then
    .ok (d.map (fun p =>
      if p.1 == it.itemId then
        (p.1, ⟨p.2.itemId, p.2.finalStatus, p.2.matchedBlocks ++ [mkRecord blockId it]⟩)
      else p))
  else .error ("KeyError: " ++ it.itemId)

/-- The inner merge loop over one block's `Checklist Evaluation`. -/
def mergeEval (blockId : String) : SummaryDict → List ItemStatusR → Except String SummaryDict
  | d, [] => .ok d
  | d, it :: rest =>
    match mergeItem blockId d it with
    | .ok d2 => mergeEval blockId d2 rest
    | .error e => .error e

/-- The outer merge loop over `all_block_results` (app_run.py lines 105-117). -/
def mergeBlocks : SummaryDict → List BlockResult → Except String SummaryDict
  | d, [] => .ok d
  | d, blk :: rest =>
    match mergeEval blk.blockId d blk.evaluation with
    | .ok d2 => mergeBlocks d2 rest
    | .error e => .error e

/-- The finalisation loop of `compile_summary` (app_run.py lines 119-124):
status precedence over the recorded `Matched Blocks` statuses. -/
def finalizeInfo (info : SummaryInfo) : SummaryInfo :=
  if (info.matchedBlocks.map (fun b => b.status)).contains "Explicitly Mentioned" then
    ⟨info.itemId, "Explicitly Mentioned", info.matchedBlocks⟩
  else if (info.matchedBlocks.map (fun b => b.status)).contains "Partially Mentioned" then
    ⟨info.itemId, "Partially Mentioned", info.matchedBlocks⟩
  else info

/-- `compile_summary` (app_run.py lines 95-126): initialise, merge every
block result (possibly raising `KeyError`), finalise, and return the dict
values in insertion order. -/
def compile_summary (checklist : List ChecklistItem) (allBlockResults : List BlockResult) :
    Except String (List SummaryInfo) :=
  match mergeBlocks (initDict checklist) allBlockResults with
  | .ok d => .ok (d.map (fun p => finalizeInfo p.2))
  | .error e => .error e

/-- `section_4_checklist` (app_run.py lines 12-17). -/
def section_4_checklist : List ChecklistItem :=
  [⟨"4.1", "The policy must state that personal data is processed only as per the provisions of the Digital Personal Data Protection Act, 2023."⟩,
   ⟨"4.2", "The policy must confirm that personal data is processed only for a lawful purpose."⟩,
   ⟨"4.3", "The policy must define lawful purpose as any purpose not expressly forbidden by law."⟩,
   ⟨"4.4", "The policy must include a statement that personal data is processed only with the consent of the Data Principal."⟩]

/-- A structurally well-formed `Checklist Evaluation` array. -/
abbrev ParsedEval := List ItemStatusR

/-- A parsed JSON dict as appended to `all_block_results` (app_run.py line
153).  `wellFormed ev` is a dict whose `Checklist Evaluation` conforms to
the expected structure; `malformed` is a dict that does not (missing
`Checklist Evaluation` key, non-list value, or entries without the
`Checklist Item ID` / `Status` keys) — reading its evaluation raises, at
line 156 inside the per-block `try`, and again uncaught at
lines 107-109 inside `compile_summary`. -/
inductive BlockDict where
  | wellFormed (ev : ParsedEval)
  | malformed
deriving DecidableEq, Repr

/-- The evaluation a well-formed dict carries (junk value on `malformed`;
reading a malformed dict in the real code raises instead — see
`mergeBlocksRaw`). -/
def evalOf : BlockDict → ParsedEval
  | .wellFormed ev => ev
  | .malformed => []

/-- The "Run Compliance Check" loop of app_run.py (lines 146-162): blocks
are enumerated from 1.  `none` is a response whose failure surfaces before
the append — `json.loads` raises (line 151), or the parsed value is not a
dict so `parsed["block_id"] = ...` raises (line 152) — it is reported and
skipped.  `some bd` is a parsed dict: it is tagged `BLOCK{i}` and appended
(line 153) BEFORE its `Checklist Evaluation` is ever read (line 156), so
it is collected whether or not its structure is the expected one. -/
def runLoop : Nat → List (Option BlockDict) → List (String × BlockDict)
  | _, [] => []
  | i, none :: rest => runLoop (i + 1) rest
  | i, some bd :: rest => ("BLOCK" ++ toString i, bd) :: runLoop (i + 1) rest

/-- `all_block_results` as accumulated by the loop (app_run.py lines 143-153). -/
def all_block_results (responses : List (Option BlockDict)) : List (String × BlockDict) :=
  runLoop 1 responses

/-- The merge loop of `compile_summary` run over the dicts the loop really
collected (app_run.py lines 105-117): a well-formed dict merges exactly
like the corresponding `BlockResult`; reading `block["Checklist
Evaluation"]` of a malformed dict (line 107) raises an uncaught KeyError. -/
def mergeBlocksRaw : SummaryDict → List (String × BlockDict) → Except String SummaryDict
  | d, [] => .ok d
  | d, (bid, .wellFormed ev) :: rest =>
    match mergeEval bid d ev with
    | .ok d2 => mergeBlocksRaw d2 rest
    | .error e => .error e
  | _, (_, .malformed) :: _ => .error ("KeyError: Checklist Evaluation")

/-- `compile_summary` applied to the dicts the loop really collected:
initialise, merge (possibly raising), finalise. -/
def compile_summary_raw (checklist : List ChecklistItem)
    (blocks : List (String × BlockDict)) : Except String (List SummaryInfo) :=
  match mergeBlocksRaw (initDict checklist) blocks with
  | .ok d => .ok (d.map (fun p => finalizeInfo p.2))
  | .error e => .error e

/-- The whole "Run Compliance Check" pipeline of app_run.py (lines
141-165): collect the appended dicts, then compile the summary.  An
exception in this last step (line 165 sits outside every `try`) aborts
the run with no summary output. -/
def runComplianceCheck (responses : List (Option BlockDict)) :
    Except String (List SummaryInfo) :=
  compile_summary_raw section_4_checklist (all_block_results responses)

/-- One parsed section analysis of app.py (the JSON object of lines 70-79).
`Compliance Points` arrives as a decimal numeral and is read with
`astype(float)`; it is modelled as a rational. -/
structure SectionResult where
  dpdpaSection : String
  matchedPolicySnippets : String
  matchLevel : String
  severity : String
  compliancePoints : ℚ
  justification : String
  suggestedRewrite : String
deriving DecidableEq, Repr

/-- `dpdpa_sections` (app.py lines 29-37). -/
def dpdpa_sections : List String :=
  ["Section 4 — Grounds for Processing Personal Data",
   "Section 5 — Notice",
   "Section 6 — Consent",
   "Section 7 — Certain Legitimate Uses",
   "Section 8 — General Obligations of Data Fiduciary",
   "Section 9 — Processing of Personal Data of Children",
   "Section 10 — Additional Obligations of Significant Data Fiduciaries"]

/-- The "Run Analysis" loop of app.py (lines 96-104): a parseable section
result is appended to `results`, a failing section is reported and skipped. -/
def collectResults : List (Option SectionResult) → List SectionResult
  | [] => []
  | none :: rest => collectResults rest
  | some r :: rest => r :: collectResults rest

/-- The score calculation of app.py (lines 113-116):
`sum(points) / len(df) * 100` over the collected results. -/
def complianceScore (results : List SectionResult) : ℚ :=
  ((results.map (fun r => r.compliancePoints)).sum / (results.length : ℚ)) * 100

/-- The records contributed to item `k`'s `Matched Blocks` by a single
evaluation entry of the block `blockId`. -/
def recsOfItem (blockId : String) (k : String) (it : ItemStatusR) : List MatchedBlock :=
  if it.itemId = k ∧ it.status ≠ "Missing" then [mkRecord blockId it] else []

/-- The records contributed to item `k` by one block's evaluation. -/
def recsOfEval (blockId : String) (k : String) (ev : List ItemStatusR) : List MatchedBlock :=
  (ev.map (recsOfItem blockId k)).flatten

/-- The records contributed to item `k` by a whole run, in block order. -/
def recordsFor (k : String) (results : List BlockResult) : List MatchedBlock :=
  (results.map (fun blk => recsOfEval blk.blockId k blk.evaluation)).flatten

/-- All statuses reported for item `k` across a run, in order (including
`"Missing"` reports). -/
def reportedStatuses (k : String) (results : List BlockResult) : List String :=
  (results.map (fun blk =>
    blk.evaluation.filterMap (fun it => if it.itemId = k then some it.status else none))).flatten

/-- Append further records to a summary value. -/
def addRecs (info : SummaryInfo) (rs : List MatchedBlock) : SummaryInfo :=
  ⟨info.itemId, info.finalStatus, info.matchedBlocks ++ rs⟩

/-- Splitting a line into space-separated words, for the spec-side reading
of claim C2. -/
def splitWordsAux : List Char → List Char → List (List Char)
  | [], cur => if cur.isEmpty then [] else [cur.reverse]
  | c :: rest, cur =>
    if c == ' ' then
      (if cur.isEmpty then splitWordsAux rest [] else cur.reverse :: splitWordsAux rest [])
    else splitWordsAux rest (c :: cur)

/-- Modelled from the claim's words (C2, part (a)): "a line consisting only
of capitalized words and spaces, with no lowercase-only words" — every
character a letter or space, and every word beginning with an uppercase
letter. -/
def specCapWordsLine (s : List Char) : Bool :=
  !s.isEmpty && s.all (fun c => isAlphaAZaz c || c == ' ') &&
  (splitWordsAux s []).all (fun w =>
    match w with
    | [] => true
    | c :: _ => isUpperAZ c)

/-- Modelled from the claim's words (C2, part (b)): "a line beginning with a
numeric marker followed by a period and a space". -/
def specNumericMarker (s : List Char) : Bool :=
  !(s.takeWhile isDigit09).isEmpty &&
  (match s.dropWhile isDigit09 with
   | '.' :: c :: _ => c == ' '
   | _ => false)

/-- The heading predicate exactly as claim C2 words it. -/
def specClaimHeading (s : List Char) : Bool :=
  specCapWordsLine s || specNumericMarker s

/-- Declarative shape of the code's heading predicate (used by the amended
form of C2): either an uppercase ASCII letter followed by at least one more
character, all of them ASCII letters or whitespace; or a non-empty run of
digits, a period, and a whitespace character, followed by anything. -/
def HeadingShape (s : List Char) : Prop :=
  (∃ c rest, s = c :: rest ∧ isUpperAZ c = true ∧ rest ≠ [] ∧
     ∀ d ∈ rest, isAlphaAZaz d = true ∨ pyIsSpace d = true) ∨
  (∃ ds c rest, s = ds ++ '.' :: c :: rest ∧ ds ≠ [] ∧
     (∀ d ∈ ds, isDigit09 d = true) ∧ pyIsSpace c = true)

/-- Two concrete block results used by witnesses: block 1 reports item 4.1
partially (with justification) and 4.2 missing; block 2 reports 4.1
explicitly and 4.2 partially with no justification key. -/
def demoResults : List BlockResult :=
  [⟨"BLOCK1", [⟨"4.1", "Partially Mentioned", some "partly"⟩, ⟨"4.2", "Missing", none⟩]⟩,
   ⟨"BLOCK2", [⟨"4.1", "Explicitly Mentioned", some "fully"⟩, ⟨"4.2", "Partially Mentioned", none⟩]⟩]

/-- The value of `compile_summary section_4_checklist demoResults`. -/
def demoOut : List SummaryInfo :=
  [⟨"4.1", "Explicitly Mentioned",
     [⟨"BLOCK1", "Partially Mentioned", "partly"⟩, ⟨"BLOCK2", "Explicitly Mentioned", "fully"⟩]⟩,
   ⟨"4.2", "Partially Mentioned", [⟨"BLOCK2", "Partially Mentioned", ""⟩]⟩,
   ⟨"4.3", "Missing", []⟩,
   ⟨"4.4", "Missing", []⟩]

/-- The first summary of `demoOut`. -/
def demoS1 : SummaryInfo :=
  ⟨"4.1", "Explicitly Mentioned",
   [⟨"BLOCK1", "Partially Mentioned", "partly"⟩, ⟨"BLOCK2", "Explicitly Mentioned", "fully"⟩]⟩

/-- A concrete parsed block evaluation used by witnesses. -/
def demoEval1 : ParsedEval := [⟨"4.1", "Explicitly Mentioned", some "states the consent rule"⟩]

/-- A second concrete parsed block evaluation used by witnesses. -/
def demoEval2 : ParsedEval := [⟨"4.2", "Partially Mentioned", none⟩]

/-- A concrete fully-compliant section analysis used by witnesses. -/
def demoSection1 : SectionResult :=
  ⟨"Section 4 — Grounds for Processing Personal Data", "quoted text", "Fully Compliant",
   "", 1, "all requirements present", ""⟩

/-- A concrete partially-compliant section analysis used by witnesses. -/
def demoSection2 : SectionResult :=
  ⟨"Section 5 — Notice", "quoted text", "Partially Compliant", "Medium", 1 / 2,
   "notice wording incomplete", "add notice details"⟩

/-- Responses of a run in which the second section failed to parse. -/
def demoResponses : List (Option SectionResult) :=
  [some demoSection1, none, some demoSection2]

/-- A line that is non-empty and has no whitespace at either end (the shape
of every non-empty `pyStrip` result). -/
def goodLine (l : List Char) : Prop :=
  l ≠ [] ∧ (∀ c, l.head? = some c → pyIsSpace c = false) ∧
  (∀ c, l.getLast? = some c → pyIsSpace c = false)

theorem head?_dropWhile_not (p : Char → Bool) :
    ∀ (l : List Char) (c : Char), (l.dropWhile p).head? = some c → p c = false := by
  intro l
  induction l with
  | nil => intro c h; simp [List.dropWhile] at h
  | cons x t ih =>
    intro c h
    by_cases hx : p x
    · rw [List.dropWhile_cons_of_pos hx] at h
      exact ih c h
    · rw [List.dropWhile_cons_of_neg hx] at h
      simp at h
      subst h
      revert hx
      cases p x <;> simp

theorem getLast?_dropWhile (p : Char → Bool) :
    ∀ l : List Char, l.dropWhile p ≠ [] → (l.dropWhile p).getLast? = l.getLast? := by
  intro l
  induction l with
  | nil => intro h; simp [List.dropWhile] at h
  | cons x t ih =>
    intro h
    by_cases hx : p x
    · rw [List.dropWhile_cons_of_pos hx] at h ⊢
      rw [ih h]
      have ht : t ≠ [] := by
        intro he
        exact h (by simp [he, List.dropWhile])
      obtain ⟨y, t', rfl⟩ := List.exists_cons_of_ne_nil ht
      simp [List.getLast?_cons_cons]
    · rw [List.dropWhile_cons_of_neg hx]

theorem head?_append_left {x y : List Char} (h : x ≠ []) : (x ++ y).head? = x.head? := by
  obtain ⟨c, t, rfl⟩ := List.exists_cons_of_ne_nil h
  simp

theorem getLast?_append_right {x y : List Char} (h : y ≠ []) :
    (x ++ y).getLast? = y.getLast? := by
  rw [← List.head?_reverse, ← List.head?_reverse y, List.reverse_append]
  exact head?_append_left (by simpa using h)

theorem pyStrip_good : ∀ l : List Char, pyStrip l = [] ∨ goodLine (pyStrip l) := by
  intro l
  by_cases hb : (((l.dropWhile pyIsSpace).reverse).dropWhile pyIsSpace) = []
  · left; simp [pyStrip, hb]
  · right
    refine ⟨by simp [pyStrip, hb], ?_, ?_⟩
    · intro c hc
      rw [pyStrip, List.head?_reverse] at hc
      rw [getLast?_dropWhile _ _ hb, List.getLast?_reverse] at hc
      exact head?_dropWhile_not _ _ _ hc
    · intro c hc
      rw [pyStrip, List.getLast?_reverse] at hc
      exact head?_dropWhile_not _ _ _ hc

theorem goodLine_pyStrip_eq {l : List Char} (h : goodLine l) : pyStrip l = l := by
  obtain ⟨hne, hh, hl⟩ := h
  obtain ⟨c, t, rfl⟩ := List.exists_cons_of_ne_nil hne
  have h1 : (c :: t).dropWhile pyIsSpace = c :: t :=
    List.dropWhile_cons_of_neg (by simp [hh c rfl])
  rw [pyStrip, h1]
  have hrne : (c :: t).reverse ≠ [] := by simp
  obtain ⟨c', t', he⟩ := List.exists_cons_of_ne_nil hrne
  have hc' : pyIsSpace c' = false := by
    apply hl
    rw [← List.head?_reverse, he]
    rfl
  rw [he, List.dropWhile_cons_of_neg (by simp [hc']), ← he, List.reverse_reverse]

theorem goodLine_joinSp : ∀ cur : List (List Char), cur ≠ [] →
    (∀ l ∈ cur, goodLine l) → goodLine (pyJoinSp cur) := by
  intro cur
  induction cur with
  | nil => intro h; exact absurd rfl h
  | cons x t ih =>
    intro _ hall
    have hx : goodLine x := hall x (by simp)
    cases t with
    | nil => simpa [pyJoinSp] using hx
    | cons y t' =>
      have hj : goodLine (pyJoinSp (y :: t')) := by
        apply ih (by simp)
        intro l hl
        exact hall l (by simp [hl])
      rw [pyJoinSp]
      refine ⟨by simp [hx.1], ?_, ?_⟩
      · intro c hc
        rw [head?_append_left hx.1] at hc
        exact hx.2.1 c hc
      · intro c hc
        rw [getLast?_append_right (by simp)] at hc
        rw [show (' ' :: pyJoinSp (y :: t')) = [' '] ++ pyJoinSp (y :: t') from rfl,
          getLast?_append_right hj.1] at hc
        exact hj.2.2 c hc

theorem joinBlock_eq_joinSp {cur : List (List Char)} (h : cur ≠ [])
    (hall : ∀ l ∈ cur, goodLine l) : joinBlock cur = pyJoinSp cur :=
  goodLine_pyStrip_eq (goodLine_joinSp cur h hall)

theorem pyJoinSp_append : ∀ (xs ys : List (List Char)), xs ≠ [] → ys ≠ [] →
    pyJoinSp (xs ++ ys) = pyJoinSp xs ++ ' ' :: pyJoinSp ys := by
  intro xs
  induction xs with
  | nil => intro ys h; exact absurd rfl h
  | cons x t ih =>
    intro ys _ hys
    cases t with
    | nil =>
      obtain ⟨y, t', rfl⟩ := List.exists_cons_of_ne_nil hys
      simp [pyJoinSp]
    | cons x2 t2 =>
      rw [show (x :: x2 :: t2) ++ ys = x :: x2 :: (t2 ++ ys) from rfl, pyJoinSp,
        show (x2 :: (t2 ++ ys)) = (x2 :: t2) ++ ys from rfl, ih ys (by simp) hys, pyJoinSp]
      simp

theorem isEmpty_false_iff {α : Type} (l : List α) : l.isEmpty = false ↔ l ≠ [] := by
  cases l <;> simp

theorem isEmpty_true_iff {α : Type} (l : List α) : l.isEmpty = true ↔ l = [] := by
  cases l <;> simp

theorem goodStrips_cons (line : List Char) (rest : List (List Char)) :
    goodStrips (line :: rest) =
      if (pyStrip line).isEmpty then goodStrips rest else pyStrip line :: goodStrips rest := by
  unfold goodStrips
  rw [List.map_cons, List.filter_cons]
  cases h : (pyStrip line).isEmpty <;> simp [h]

theorem goodStrips_good : ∀ (lines : List (List Char)) (l : List Char),
    l ∈ goodStrips lines → goodLine l := by
  intro lines l hl
  unfold goodStrips at hl
  rw [List.mem_filter] at hl
  obtain ⟨hm, hne⟩ := hl
  rw [List.mem_map] at hm
  obtain ⟨l0, _, rfl⟩ := hm
  rcases pyStrip_good l0 with h | h
  · rw [h] at hne
    simp at hne
  · exact h

theorem blocksAux_cons_blank {line : List Char} {rest cur : List (List Char)}
    (h : (pyStrip line).isEmpty = true) :
    blocksAux (line :: rest) cur = blocksAux rest cur := by
  rw [blocksAux]
  simp [h]

theorem blocksAux_cons_heading_nilcur {line : List Char} {rest : List (List Char)}
    (h : (pyStrip line).isEmpty = false) (hh : isHeadingLine (pyStrip line) = true) :
    blocksAux (line :: rest) [] = blocksAux rest [pyStrip line] := by
  rw [blocksAux]
  simp [h, hh]

theorem blocksAux_cons_heading {line : List Char} {rest cur : List (List Char)}
    (h : (pyStrip line).isEmpty = false) (hh : isHeadingLine (pyStrip line) = true)
    (hc : cur.isEmpty = false) :
    blocksAux (line :: rest) cur = joinBlock cur :: blocksAux rest [pyStrip line] := by
  rw [blocksAux]
  simp [h, hh, hc]

theorem blocksAux_cons_plain {line : List Char} {rest cur : List (List Char)}
    (h : (pyStrip line).isEmpty = false) (hh : isHeadingLine (pyStrip line) = false) :
    blocksAux (line :: rest) cur = blocksAux rest (cur ++ [pyStrip line]) := by
  rw [blocksAux]
  simp [h, hh]

theorem blocksAux_ne_nil : ∀ (lines cur : List (List Char)), cur ≠ [] →
    blocksAux lines cur ≠ [] := by
  intro lines
  induction lines with
  | nil =>
    intro cur h
    rw [blocksAux, if_neg (by simp [h])]
    simp
  | cons line rest ih =>
    intro cur h
    by_cases h1 : (pyStrip line).isEmpty = true
    · rw [blocksAux_cons_blank h1]
      exact ih cur h
    · have h1f : (pyStrip line).isEmpty = false := by
        revert h1; cases (pyStrip line).isEmpty <;> simp
      by_cases hh : isHeadingLine (pyStrip line) = true
      · rw [blocksAux_cons_heading h1f hh ((isEmpty_false_iff cur).mpr h)]
        simp
      · have hhf : isHeadingLine (pyStrip line) = false := by
          revert hh; cases isHeadingLine (pyStrip line) <;> simp
        rw [blocksAux_cons_plain h1f hhf]
        exact ih (cur ++ [pyStrip line]) (by simp)

theorem blocksAux_joinSp : ∀ (lines cur : List (List Char)), (∀ l ∈ cur, goodLine l) →
    pyJoinSp (blocksAux lines cur) = pyJoinSp (cur ++ goodStrips lines) := by
  intro lines
  induction lines with
  | nil =>
    intro cur hall
    have hgs : goodStrips ([] : List (List Char)) = [] := rfl
    by_cases hc : cur = []
    · subst hc
      rfl
    · rw [blocksAux, hgs, List.append_nil, if_neg (by simp [hc]),
        show pyJoinSp [joinBlock cur] = joinBlock cur from rfl]
      exact joinBlock_eq_joinSp hc hall
  | cons line rest ih =>
    intro cur hall
    rw [goodStrips_cons]
    by_cases h1 : (pyStrip line).isEmpty = true
    · rw [blocksAux_cons_blank h1, if_pos h1]
      exact ih cur hall
    · have h1f : (pyStrip line).isEmpty = false := by
        revert h1; cases (pyStrip line).isEmpty <;> simp
      rw [if_neg h1]
      have hgood : goodLine (pyStrip line) := by
        rcases pyStrip_good line with h | h
        · rw [h] at h1f; simp at h1f
        · exact h
      have hsing : ∀ l ∈ [pyStrip line], goodLine l := by
        intro l hl
        simp at hl
        subst hl
        exact hgood
      by_cases hh : isHeadingLine (pyStrip line) = true
      · by_cases hc : cur = []
        · subst hc
          rw [blocksAux_cons_heading_nilcur h1f hh, ih [pyStrip line] hsing]
          simp
        · have hcE : cur.isEmpty = false := (isEmpty_false_iff cur).mpr hc
          rw [blocksAux_cons_heading h1f hh hcE]
          have hB : blocksAux rest [pyStrip line] ≠ [] := blocksAux_ne_nil rest _ (by simp)
          obtain ⟨b, bs, hbs⟩ := List.exists_cons_of_ne_nil hB
          rw [hbs, pyJoinSp, ← hbs, ih [pyStrip line] hsing,
            joinBlock_eq_joinSp hc hall,
            pyJoinSp_append cur (pyStrip line :: goodStrips rest) hc (by simp)]
          simp
      · have hhf : isHeadingLine (pyStrip line) = false := by
          revert hh; cases isHeadingLine (pyStrip line) <;> simp
        rw [blocksAux_cons_plain h1f hhf,
          ih (cur ++ [pyStrip line]) (by
            intro l hl
            rcases List.mem_append.mp hl with h | h
            · exact hall l h
            · simp at h
              subst h
              exact hgood),
          List.append_assoc]
        simp

theorem blocksAux_no_heading : ∀ (lines cur : List (List Char)), cur ≠ [] →
    (∀ l ∈ lines, (pyStrip l).isEmpty = false → isHeadingLine (pyStrip l) = false) →
    blocksAux lines cur = [joinBlock (cur ++ goodStrips lines)] := by
  intro lines
  induction lines with
  | nil =>
    intro cur hc _
    rw [blocksAux, if_neg (by simp [hc])]
    have hgs : goodStrips ([] : List (List Char)) = [] := rfl
    rw [hgs, List.append_nil]
  | cons line rest ih =>
    intro cur hc hnh
    rw [goodStrips_cons]
    by_cases h1 : (pyStrip line).isEmpty = true
    · rw [blocksAux_cons_blank h1, if_pos h1]
      exact ih cur hc (fun l hl h => hnh l (by simp [hl]) h)
    · have h1f : (pyStrip line).isEmpty = false := by
        revert h1; cases (pyStrip line).isEmpty <;> simp
      have hhf := hnh line (by simp) h1f
      rw [if_neg h1, blocksAux_cons_plain h1f hhf,
        ih (cur ++ [pyStrip line]) (by simp) (fun l hl h => hnh l (by simp [hl]) h),
        List.append_assoc]
      simp

theorem blocksAux_no_heading_from_nil : ∀ lines : List (List Char),
    (∀ l ∈ lines, (pyStrip l).isEmpty = false → isHeadingLine (pyStrip l) = false) →
    (∃ l ∈ lines, (pyStrip l).isEmpty = false) →
    blocksAux lines [] = [joinBlock (goodStrips lines)] := by
  intro lines
  induction lines with
  | nil =>
    intro _ hex
    simp at hex
  | cons line rest ih =>
    intro hnh hex
    rw [goodStrips_cons]
    by_cases h1 : (pyStrip line).isEmpty = true
    · rw [blocksAux_cons_blank h1, if_pos h1]
      apply ih (fun l hl h => hnh l (by simp [hl]) h)
      rcases hex with ⟨l, hl, hne⟩
      rcases List.mem_cons.mp hl with rfl | hl'
      · rw [h1] at hne
        cases hne
      · exact ⟨l, hl', hne⟩
    · have h1f : (pyStrip line).isEmpty = false := by
        revert h1; cases (pyStrip line).isEmpty <;> simp
      have hhf := hnh line (by simp) h1f
      rw [if_neg h1, blocksAux_cons_plain h1f hhf,
        blocksAux_no_heading rest ([] ++ [pyStrip line]) (by simp)
          (fun l hl h => hnh l (by simp [hl]) h)]
      simp

theorem blocksAux_all_blank : ∀ lines : List (List Char),
    (∀ l ∈ lines, pyStrip l = []) → blocksAux lines [] = [] := by
  intro lines
  induction lines with
  | nil =>
    intro _
    rfl
  | cons line rest ih =>
    intro h
    rw [blocksAux_cons_blank (by simp [h line (by simp)])]
    exact ih (fun l hl => h l (by simp [hl]))

/-- C7: for every input string that is empty or consists only of blank
(whitespace-only) lines, the Segmenter returns an empty sequence of blocks. -/
theorem break_into_blocks_blank_input (text : List Char)
    (h : ∀ l ∈ pySplitlines text, pyStrip l = []) :
    break_into_blocks text = [] := by
  rw [break_into_blocks]
  exact blocksAux_all_blank (pySplitlines text) h

/-- Witness for C7 at the concrete input " \n\t" (one space line, one tab
line); also covers the empty input through the same theorem. -/
theorem break_into_blocks_blank_input_witness :
    break_into_blocks (" \n\t".toList) = [] :=
  break_into_blocks_blank_input (" \n\t".toList) (by decide)

/-- C5: for every input string with at least one non-blank line and no
heading-like line, the Segmenter returns exactly one block, whose text is
the stripped non-blank lines joined with single spaces and trimmed. -/
theorem break_into_blocks_single_block (text : List Char)
    (hne : ∃ l ∈ pySplitlines text, pyStrip l ≠ [])
    (hnh : ∀ l ∈ pySplitlines text, pyStrip l ≠ [] → isHeadingLine (pyStrip l) = false) :
    break_into_blocks text = [pyStrip (pyJoinSp (goodStrips (pySplitlines text)))] := by
  rw [break_into_blocks]
  have h1 : ∀ l ∈ pySplitlines text,
      (pyStrip l).isEmpty = false → isHeadingLine (pyStrip l) = false :=
    fun l hl h => hnh l hl ((isEmpty_false_iff _).mp h)
  have h2 : ∃ l ∈ pySplitlines text, (pyStrip l).isEmpty = false := by
    obtain ⟨l, hl, h⟩ := hne
    exact ⟨l, hl, (isEmpty_false_iff _).mpr h⟩
  rw [blocksAux_no_heading_from_nil (pySplitlines text) h1 h2]
  rfl

/-- Witness for C5 at the concrete two-line heading-free input
"hello world\nsecond line". -/
theorem break_into_blocks_single_block_witness :
    break_into_blocks ("hello world\nsecond line".toList) =
      [pyStrip (pyJoinSp (goodStrips (pySplitlines ("hello world\nsecond line".toList))))] :=
  break_into_blocks_single_block ("hello world\nsecond line".toList) (by decide) (by decide)

/-- C10: segmentation conserves text — joining the output blocks with
single spaces yields exactly the stripped non-blank input lines joined
with single spaces: no line is dropped, duplicated or reordered. -/
theorem break_into_blocks_conserves_text (text : List Char) :
    pyJoinSp (break_into_blocks text) = pyJoinSp (goodStrips (pySplitlines text)) := by
  rw [break_into_blocks, blocksAux_joinSp (pySplitlines text) [] (by intro l hl; simp at hl)]
  rfl

theorem addRecs_nil (info : SummaryInfo) : addRecs info [] = info := by
  simp [addRecs]

theorem map_addRecs_nil (d : SummaryDict) :
    d.map (fun p => (p.1, addRecs p.2 [])) = d := by
  have h : (fun p : String × SummaryInfo => (p.1, addRecs p.2 [])) = id :=
    funext fun p => by simp [addRecs]
  rw [h, List.map_id]

theorem recsOfItem_of_missing {blockId k : String} {it : ItemStatusR}
    (h : it.status = "Missing") : recsOfItem blockId k it = [] := by
  unfold recsOfItem
  rw [if_neg (fun hC => hC.2 h)]

theorem recsOfItem_of_other_id {blockId k : String} {it : ItemStatusR}
    (h : it.itemId ≠ k) : recsOfItem blockId k it = [] := by
  unfold recsOfItem
  rw [if_neg (fun hC => h hC.1)]

theorem mergeItem_ok_eq {blockId : String} {d : SummaryDict} {it : ItemStatusR}
    {d2 : SummaryDict} (h : mergeItem blockId d it = .ok d2) :
    d2 = d.map (fun p => (p.1, addRecs p.2 (recsOfItem blockId p.1 it))) := by
  unfold mergeItem at h
  by_cases hs : it.status = "Missing"
  · rw [if_pos (by simp [hs])] at h
    simp at h
    subst h
    have hfun : (fun p : String × SummaryInfo =>
        (p.1, addRecs p.2 (recsOfItem blockId p.1 it))) = id :=
      funext fun p => by simp [recsOfItem_of_missing hs, addRecs]
    rw [hfun, List.map_id]
  · rw [if_neg (by simp [hs])] at h
    by_cases hck : containsKey d it.itemId = true
    · rw [if_pos hck] at h
      simp at h
      rw [← h]
      have hfun : (fun p : String × SummaryInfo =>
          if p.1 = it.itemId then
            (p.1, (⟨p.2.itemId, p.2.finalStatus,
              p.2.matchedBlocks ++ [mkRecord blockId it]⟩ : SummaryInfo))
          else p)
          = fun p => (p.1, addRecs p.2 (recsOfItem blockId p.1 it)) := by
        funext p
        by_cases hp : p.1 = it.itemId
        · rw [if_pos hp]
          unfold recsOfItem
          rw [if_pos ⟨hp.symm, hs⟩]
          simp [addRecs]
        · rw [if_neg hp, recsOfItem_of_other_id (fun he => hp he.symm), addRecs_nil]
      rw [hfun]
    · rw [if_neg hck] at h
      simp at h

theorem mergeEval_ok_eq {blockId : String} : ∀ (ev : List ItemStatusR) (d d2 : SummaryDict),
    mergeEval blockId d ev = .ok d2 →
    d2 = d.map (fun p => (p.1, addRecs p.2 (recsOfEval blockId p.1 ev))) := by
  intro ev
  induction ev with
  | nil =>
    intro d d2 h
    rw [mergeEval] at h
    simp at h
    subst h
    exact (map_addRecs_nil d).symm
  | cons it rest ih =>
    intro d d2 h
    rw [mergeEval] at h
    cases hmi : mergeItem blockId d it with
    | error e =>
      rw [hmi] at h
      simp at h
    | ok dm =>
      rw [hmi] at h
      rw [ih dm d2 h, mergeItem_ok_eq hmi, List.map_map]
      have hfg : ((fun p : String × SummaryInfo =>
          (p.1, addRecs p.2 (recsOfEval blockId p.1 rest))) ∘
          (fun p : String × SummaryInfo =>
          (p.1, addRecs p.2 (recsOfItem blockId p.1 it))))
          = fun p => (p.1, addRecs p.2 (recsOfEval blockId p.1 (it :: rest))) := by
        funext p
        simp [Function.comp, addRecs, recsOfEval, List.append_assoc]
      rw [hfg]

theorem mergeBlocks_ok_eq : ∀ (results : List BlockResult) (d d2 : SummaryDict),
    mergeBlocks d results = .ok d2 →
    d2 = d.map (fun p => (p.1, addRecs p.2 (recordsFor p.1 results))) := by
  intro results
  induction results with
  | nil =>
    intro d d2 h
    rw [mergeBlocks] at h
    simp at h
    subst h
    exact (map_addRecs_nil d).symm
  | cons blk rest ih =>
    intro d d2 h
    rw [mergeBlocks] at h
    cases hme : mergeEval blk.blockId d blk.evaluation with
    | error e =>
      rw [hme] at h
      simp at h
    | ok dm =>
      rw [hme] at h
      rw [ih dm d2 h, mergeEval_ok_eq blk.evaluation d dm hme, List.map_map]
      have hfg : ((fun p : String × SummaryInfo =>
          (p.1, addRecs p.2 (recordsFor p.1 rest))) ∘
          (fun p : String × SummaryInfo =>
          (p.1, addRecs p.2 (recsOfEval blk.blockId p.1 blk.evaluation))))
          = fun p => (p.1, addRecs p.2 (recordsFor p.1 (blk :: rest))) := by
        funext p
        simp [Function.comp, addRecs, recordsFor, List.append_assoc]
      rw [hfg]

theorem compile_summary_ok_eq {c : List ChecklistItem} {results : List BlockResult}
    {out : List SummaryInfo} (h : compile_summary c results = .ok out) :
    out = (initDict c).map
      (fun p => finalizeInfo (addRecs p.2 (recordsFor p.1 results))) := by
  unfold compile_summary at h
  cases hmb : mergeBlocks (initDict c) results with
  | error e =>
    rw [hmb] at h
    simp at h
  | ok d =>
    rw [hmb] at h
    simp at h
    rw [← h, mergeBlocks_ok_eq results (initDict c) d hmb, List.map_map]
    rfl

theorem initDict_val : ∀ (c : List ChecklistItem) (p : String × SummaryInfo),
    p ∈ initDict c → p.2 = ⟨p.1, "Missing", []⟩ := by
  suffices h : ∀ (c : List ChecklistItem) (d : SummaryDict),
      (∀ p ∈ d, p.2 = (⟨p.1, "Missing", []⟩ : SummaryInfo)) →
      ∀ p ∈ c.foldl (fun d item => dictInsert d item.id ⟨item.id, "Missing", []⟩) d,
        p.2 = (⟨p.1, "Missing", []⟩ : SummaryInfo) by
    intro c p hp
    exact h c [] (by intro q hq; simp at hq) p hp
  intro c
  induction c with
  | nil =>
    intro d hd p hp
    exact hd p hp
  | cons item rest ih =>
    intro d hd p hp
    rw [List.foldl_cons] at hp
    refine ih (dictInsert d item.id ⟨item.id, "Missing", []⟩) ?_ p hp
    intro q hq
    unfold dictInsert at hq
    by_cases hck : containsKey d item.id = true
    · rw [if_pos hck] at hq
      rw [List.mem_map] at hq
      obtain ⟨q0, hq0, rfl⟩ := hq
      by_cases h1 : q0.1 = item.id
      · rw [if_pos (by simp [h1])]
      · rw [if_neg (by simp [h1])]
        exact hd q0 hq0
    · rw [if_neg hck] at hq
      rcases List.mem_append.mp hq with h | h
      · exact hd q h
      · simp at h
        subst h
        rfl

theorem containsKey_nil (k : String) : containsKey [] k = false := rfl

theorem containsKey_dictInsert (d : SummaryDict) (k0 k : String) (v : SummaryInfo) :
    containsKey (dictInsert d k0 v) k = true ↔ containsKey d k = true ∨ k = k0 := by
  unfold dictInsert
  by_cases hck : containsKey d k0 = true
  · rw [if_pos hck]
    have hmap : containsKey (d.map (fun p => if p.1 == k0 then (k0, v) else p)) k
        = containsKey d k := by
      unfold containsKey
      rw [List.any_map]
      congr 1
      funext p
      by_cases hp : p.1 = k0
      · simp [hp]
      · simp [hp]
    rw [hmap]
    constructor
    · exact fun h => Or.inl h
    · rintro (h | rfl)
      · exact h
      · exact hck
  · rw [if_neg hck]
    unfold containsKey
    rw [List.any_append]
    constructor
    · intro h
      rw [Bool.or_eq_true] at h
      rcases h with h | h
      · exact Or.inl h
      · right
        have h2 : (k0 == k) = true := by simpa using h
        exact (beq_iff_eq.mp h2).symm
    · intro h
      rw [Bool.or_eq_true]
      rcases h with h | rfl
      · exact Or.inl h
      · right
        simp

theorem containsKey_initDict : ∀ (c : List ChecklistItem) (k : String),
    containsKey (initDict c) k = true ↔ k ∈ c.map (fun x => x.id) := by
  suffices h : ∀ (c : List ChecklistItem) (d : SummaryDict) (k : String),
      containsKey (c.foldl (fun d item => dictInsert d item.id ⟨item.id, "Missing", []⟩) d) k
        = true ↔ containsKey d k = true ∨ k ∈ c.map (fun x => x.id) by
    intro c k
    rw [show initDict c
      = c.foldl (fun d item => dictInsert d item.id ⟨item.id, "Missing", []⟩) [] from rfl, h]
    simp [containsKey]
  intro c
  induction c with
  | nil =>
    intro d k
    simp
  | cons item rest ih =>
    intro d k
    rw [List.foldl_cons, ih, containsKey_dictInsert]
    simp [or_assoc]

theorem mergeItem_ok_keys {blockId : String} {d : SummaryDict} {it : ItemStatusR}
    {d2 : SummaryDict} (h : mergeItem blockId d it = .ok d2) (k : String) :
    containsKey d2 k = containsKey d k := by
  rw [mergeItem_ok_eq h]
  unfold containsKey
  rw [List.any_map]
  rfl

theorem mergeEval_ok_keys {blockId : String} {ev : List ItemStatusR} {d d2 : SummaryDict}
    (h : mergeEval blockId d ev = .ok d2) (k : String) :
    containsKey d2 k = containsKey d k := by
  rw [mergeEval_ok_eq ev d d2 h]
  unfold containsKey
  rw [List.any_map]
  rfl

theorem mergeEval_err {blockId : String} : ∀ (ev : List ItemStatusR) (d : SummaryDict)
    (it : ItemStatusR), it ∈ ev → it.status ≠ "Missing" →
    containsKey d it.itemId = false →
    ∃ e, mergeEval blockId d ev = .error e := by
  intro ev
  induction ev with
  | nil =>
    intro d it h
    simp at h
  | cons x rest ih =>
    intro d it hmem hs hck
    rw [mergeEval]
    cases hmi : mergeItem blockId d x with
    | error e => exact ⟨e, rfl⟩
    | ok dm =>
      rcases List.mem_cons.mp hmem with rfl | hmem2
      · exfalso
        unfold mergeItem at hmi
        rw [if_neg (by simp [hs]), if_neg (by simp [hck])] at hmi
        simp at hmi
      · refine ih dm it hmem2 hs ?_
        rw [mergeItem_ok_keys hmi]
        exact hck

theorem mergeBlocks_err : ∀ (results : List BlockResult) (d : SummaryDict)
    (blk : BlockResult) (it : ItemStatusR), blk ∈ results → it ∈ blk.evaluation →
    it.status ≠ "Missing" → containsKey d it.itemId = false →
    ∃ e, mergeBlocks d results = .error e := by
  intro results
  induction results with
  | nil =>
    intro d blk it h
    simp at h
  | cons b rest ih =>
    intro d blk it hmem hit hs hck
    rw [mergeBlocks]
    cases hme : mergeEval b.blockId d b.evaluation with
    | error e => exact ⟨e, rfl⟩
    | ok dm =>
      rcases List.mem_cons.mp hmem with rfl | hmem2
      · exfalso
        obtain ⟨e, he⟩ := mergeEval_err blk.evaluation d it hit hs hck
        rw [he] at hme
        simp at hme
      · refine ih dm blk it hmem2 hit hs ?_
        rw [mergeEval_ok_keys hme]
        exact hck

theorem initDict_eq_of_nodup : ∀ c : List ChecklistItem,
    (c.map (fun x => x.id)).Nodup →
    initDict c = c.map (fun it => (it.id, (⟨it.id, "Missing", []⟩ : SummaryInfo))) := by
  suffices h : ∀ (c : List ChecklistItem) (d : SummaryDict),
      (∀ it ∈ c, containsKey d it.id = false) → (c.map (fun x => x.id)).Nodup →
      c.foldl (fun d item => dictInsert d item.id ⟨item.id, "Missing", []⟩) d
        = d ++ c.map (fun it => (it.id, (⟨it.id, "Missing", []⟩ : SummaryInfo))) by
    intro c hnd
    rw [show initDict c
      = c.foldl (fun d item => dictInsert d item.id ⟨item.id, "Missing", []⟩) [] from rfl,
      h c [] (fun it _ => rfl) hnd]
    rfl
  intro c
  induction c with
  | nil =>
    intro d _ _
    simp
  | cons item rest ih =>
    intro d hdisj hnd
    rw [List.map_cons, List.nodup_cons] at hnd
    have hins : dictInsert d item.id ⟨item.id, "Missing", []⟩
        = d ++ [(item.id, (⟨item.id, "Missing", []⟩ : SummaryInfo))] := by
      unfold dictInsert
      rw [if_neg (by simp [hdisj item (by simp)])]
    have hrest : ∀ it ∈ rest,
        containsKey (dictInsert d item.id ⟨item.id, "Missing", []⟩) it.id = false := by
      intro it hit
      have h2 : it.id ≠ item.id := by
        intro he
        exact hnd.1 (he ▸ List.mem_map.mpr ⟨it, hit, rfl⟩)
      rw [hins]
      unfold containsKey
      rw [List.any_append]
      have h1 : containsKey d it.id = false := hdisj it (by simp [hit])
      unfold containsKey at h1
      simp [h1]
      exact fun he => h2 he.symm
    rw [List.foldl_cons, ih (dictInsert d item.id ⟨item.id, "Missing", []⟩) hrest hnd.2,
      hins, List.map_cons, List.append_assoc]
    rfl

theorem contains_iff_mem (l : List String) (a : String) : l.contains a = true ↔ a ∈ l := by
  induction l with
  | nil => simp
  | cons x t ih => simp [List.contains_cons, ih]

theorem recsOfEval_cons (blockId k : String) (it : ItemStatusR) (rest : List ItemStatusR) :
    recsOfEval blockId k (it :: rest)
      = recsOfItem blockId k it ++ recsOfEval blockId k rest := by
  simp [recsOfEval]

theorem recsOfItem_of_match {blockId k : String} {it : ItemStatusR}
    (h1 : it.itemId = k) (h2 : it.status ≠ "Missing") :
    recsOfItem blockId k it = [mkRecord blockId it] := by
  unfold recsOfItem
  rw [if_pos ⟨h1, h2⟩]

theorem recordsFor_cons (k : String) (blk : BlockResult) (rest : List BlockResult) :
    recordsFor k (blk :: rest)
      = recsOfEval blk.blockId k blk.evaluation ++ recordsFor k rest := by
  simp [recordsFor]

theorem reportedStatuses_cons (k : String) (blk : BlockResult) (rest : List BlockResult) :
    reportedStatuses k (blk :: rest)
      = blk.evaluation.filterMap (fun it => if it.itemId = k then some it.status else none)
        ++ reportedStatuses k rest := by
  simp [reportedStatuses]

theorem recsOfEval_statuses (blockId k : String) : ∀ ev : List ItemStatusR,
    (recsOfEval blockId k ev).map (fun b => b.status)
      = (ev.filterMap (fun it => if it.itemId = k then some it.status else none)).filter
          (fun s => !(s == "Missing")) := by
  intro ev
  induction ev with
  | nil => rfl
  | cons it rest ih =>
    rw [recsOfEval_cons, List.map_append, ih]
    by_cases h1 : it.itemId = k
    · have hfm : List.filterMap (fun j => if j.itemId = k then some j.status else none)
          (it :: rest)
          = it.status
            :: List.filterMap (fun j => if j.itemId = k then some j.status else none) rest := by
        rw [List.filterMap_cons]
        simp [h1]
      rw [hfm, List.filter_cons]
      by_cases h2 : it.status = "Missing"
      · rw [if_neg (by simp [h2]), recsOfItem_of_missing h2]
        simp
      · rw [if_pos (by simp [h2]), recsOfItem_of_match h1 h2]
        simp [mkRecord]
    · have hfm : List.filterMap (fun j => if j.itemId = k then some j.status else none)
          (it :: rest)
          = List.filterMap (fun j => if j.itemId = k then some j.status else none) rest := by
        rw [List.filterMap_cons]
        simp [h1]
      rw [hfm, recsOfItem_of_other_id h1]
      simp

theorem recordsFor_statuses (k : String) : ∀ results : List BlockResult,
    (recordsFor k results).map (fun b => b.status)
      = (reportedStatuses k results).filter (fun s => !(s == "Missing")) := by
  intro results
  induction results with
  | nil => rfl
  | cons blk rest ih =>
    rw [recordsFor_cons, reportedStatuses_cons, List.map_append, ih, List.filter_append,
      recsOfEval_statuses]

theorem mem_filter_not_missing {s : String} (hs : s ≠ "Missing") (l : List String) :
    s ∈ l.filter (fun x => !(x == "Missing")) ↔ s ∈ l := by
  rw [List.mem_filter]
  simp [hs]

theorem mem_filter_explicit (l : List String) :
    ("Explicitly Mentioned" ∈ l.filter (fun x => !(x == "Missing")))
      ↔ "Explicitly Mentioned" ∈ l :=
  mem_filter_not_missing (by decide) l

theorem mem_filter_partial (l : List String) :
    ("Partially Mentioned" ∈ l.filter (fun x => !(x == "Missing")))
      ↔ "Partially Mentioned" ∈ l :=
  mem_filter_not_missing (by decide) l

theorem finalizeInfo_itemId (info : SummaryInfo) :
    (finalizeInfo info).itemId = info.itemId := by
  unfold finalizeInfo
  split_ifs <;> rfl

theorem finalizeInfo_matchedBlocks (info : SummaryInfo) :
    (finalizeInfo info).matchedBlocks = info.matchedBlocks := by
  unfold finalizeInfo
  split_ifs <;> rfl

theorem finalizeInfo_status (info : SummaryInfo) :
    (finalizeInfo info).finalStatus =
      (if "Explicitly Mentioned" ∈ info.matchedBlocks.map (fun b => b.status) then
        "Explicitly Mentioned"
      else if "Partially Mentioned" ∈ info.matchedBlocks.map (fun b => b.status) then
        "Partially Mentioned"
      else info.finalStatus) := by
  unfold finalizeInfo
  by_cases h1 : "Explicitly Mentioned" ∈ info.matchedBlocks.map (fun b => b.status)
  · rw [if_pos ((contains_iff_mem _ _).mpr h1), if_pos h1]
  · rw [if_neg (fun hc => h1 ((contains_iff_mem _ _).mp hc)), if_neg h1]
    by_cases h2 : "Partially Mentioned" ∈ info.matchedBlocks.map (fun b => b.status)
    · rw [if_pos ((contains_iff_mem _ _).mpr h2), if_pos h2]
    · rw [if_neg (fun hc => h2 ((contains_iff_mem _ _).mp hc)), if_neg h2]

theorem mem_recordsFor {k : String} {mb : MatchedBlock} {results : List BlockResult}
    (h : mb ∈ recordsFor k results) :
    mb.status ≠ "Missing" ∧
      ∃ blk ∈ results, ∃ it ∈ blk.evaluation, it.itemId = k ∧ mb = mkRecord blk.blockId it := by
  unfold recordsFor at h
  rw [List.mem_flatten] at h
  obtain ⟨l, hl, hmbl⟩ := h
  rw [List.mem_map] at hl
  obtain ⟨blk, hblk, rfl⟩ := hl
  unfold recsOfEval at hmbl
  rw [List.mem_flatten] at hmbl
  obtain ⟨l2, hl2, hmb2⟩ := hmbl
  rw [List.mem_map] at hl2
  obtain ⟨it, hit, rfl⟩ := hl2
  unfold recsOfItem at hmb2
  by_cases hc : it.itemId = k ∧ it.status ≠ "Missing"
  · rw [if_pos hc] at hmb2
    simp at hmb2
    subst hmb2
    exact ⟨by simp [mkRecord, hc.2], blk, hblk, it, hit, hc.1, rfl⟩
  · rw [if_neg hc] at hmb2
    simp at hmb2

/-- C1: aggregator status precedence — for every summary the aggregator
returns, its final status is "Explicitly Mentioned" as soon as any block
reported that status for the item, else "Partially Mentioned" if any block
reported that, else "Missing", independently of how many blocks reported
each status and in which order. -/
theorem compile_summary_status_precedence
    (c : List ChecklistItem) (results : List BlockResult) (out : List SummaryInfo)
    (hok : compile_summary c results = .ok out) :
    ∀ s ∈ out, s.finalStatus =
      (if "Explicitly Mentioned" ∈ reportedStatuses s.itemId results then
        "Explicitly Mentioned"
      else if "Partially Mentioned" ∈ reportedStatuses s.itemId results then
        "Partially Mentioned"
      else "Missing") := by
  intro s hs
  rw [compile_summary_ok_eq hok, List.mem_map] at hs
  obtain ⟨p, hp, rfl⟩ := hs
  rw [initDict_val c p hp]
  simp only [finalizeInfo_status, finalizeInfo_itemId, addRecs, List.nil_append]
  rw [recordsFor_statuses]
  simp only [mem_filter_explicit, mem_filter_partial]

/-- Witness for C1 at a concrete run: item 4.1 is reported Partially
Mentioned by block 1 and Explicitly Mentioned by block 2, and its final
status is Explicitly Mentioned. -/
theorem compile_summary_status_precedence_witness :
    demoS1.finalStatus =
      (if "Explicitly Mentioned" ∈ reportedStatuses demoS1.itemId demoResults then
        "Explicitly Mentioned"
      else if "Partially Mentioned" ∈ reportedStatuses demoS1.itemId demoResults then
        "Partially Mentioned"
      else "Missing") :=
  compile_summary_status_precedence section_4_checklist demoResults demoOut (by rfl)
    demoS1 (by decide)

/-- C6: matched-blocks invariant — every record in a summary's matched
blocks has a non-"Missing" status and stems from some block evaluation
entry for that item, with the justification defaulting to the empty string
when the entry carried none. -/
theorem compile_summary_matchedBlocks_inv
    (c : List ChecklistItem) (results : List BlockResult) (out : List SummaryInfo)
    (hok : compile_summary c results = .ok out) :
    ∀ s ∈ out, ∀ mb ∈ s.matchedBlocks,
      mb.status ≠ "Missing" ∧
      ∃ blk ∈ results, ∃ it ∈ blk.evaluation,
        it.itemId = s.itemId ∧ mb.blockId = blk.blockId ∧ mb.status = it.status ∧
        mb.justification = it.justification.getD "" := by
  intro s hs mb hmb
  rw [compile_summary_ok_eq hok, List.mem_map] at hs
  obtain ⟨p, hp, rfl⟩ := hs
  rw [initDict_val c p hp] at hmb ⊢
  rw [finalizeInfo_matchedBlocks] at hmb
  simp only [addRecs, List.nil_append] at hmb
  obtain ⟨hst, blk, hblk, it, hit, hid, hmk⟩ := mem_recordsFor hmb
  subst hmk
  refine ⟨hst, blk, hblk, it, hit, ?_, rfl, rfl, rfl⟩
  rw [finalizeInfo_itemId]
  simp only [addRecs]
  exact hid

/-- Witness for C6: the Partially Mentioned record of block 1 for item 4.1
satisfies the invariant at the concrete demo run. -/
theorem compile_summary_matchedBlocks_inv_witness :
    (⟨"BLOCK1", "Partially Mentioned", "partly"⟩ : MatchedBlock).status ≠ "Missing" ∧
    ∃ blk ∈ demoResults, ∃ it ∈ blk.evaluation,
      it.itemId = demoS1.itemId ∧
      (⟨"BLOCK1", "Partially Mentioned", "partly"⟩ : MatchedBlock).blockId = blk.blockId ∧
      (⟨"BLOCK1", "Partially Mentioned", "partly"⟩ : MatchedBlock).status = it.status ∧
      (⟨"BLOCK1", "Partially Mentioned", "partly"⟩ : MatchedBlock).justification
        = it.justification.getD "" :=
  compile_summary_matchedBlocks_inv section_4_checklist demoResults demoOut (by rfl)
    demoS1 (by decide) ⟨"BLOCK1", "Partially Mentioned", "partly"⟩ (by decide)

theorem recsOfEval_eq_nil {blockId k : String} {ev : List ItemStatusR}
    (h : ∀ st ∈ ev, st.itemId ≠ k) : recsOfEval blockId k ev = [] := by
  induction ev with
  | nil => rfl
  | cons st rest ih =>
    rw [recsOfEval_cons, recsOfItem_of_other_id (h st (by simp)),
      ih (fun s hs => h s (by simp [hs]))]
    rfl

theorem recordsFor_eq_nil {k : String} {results : List BlockResult}
    (h : ∀ blk ∈ results, ∀ st ∈ blk.evaluation, st.itemId ≠ k) :
    recordsFor k results = [] := by
  induction results with
  | nil => rfl
  | cons blk rest ih =>
    rw [recordsFor_cons, recsOfEval_eq_nil (h blk (by simp)),
      ih (fun b hb s hs => h b (by simp [hb]) s hs)]
    rfl

/-- Counterexample to C3 as stated: a checklist with two items sharing one
id yields one summary, not two; and a block evaluation holding an unknown
item id with a non-"Missing" status makes the aggregator raise a KeyError,
so no output of any length exists. -/
theorem compile_summary_completeness_cex :
    ([⟨"4.1", "a"⟩, ⟨"4.1", "b"⟩] : List ChecklistItem).length = 2 ∧
    compile_summary [⟨"4.1", "a"⟩, ⟨"4.1", "b"⟩] [] = .ok [⟨"4.1", "Missing", []⟩] ∧
    compile_summary [⟨"4.1", "a"⟩]
        [⟨"BLOCK1", [⟨"4.2", "Explicitly Mentioned", none⟩]⟩]
      = .error ("KeyError: 4.2") :=
  ⟨rfl, rfl, rfl⟩

/-- C3 amended: for a checklist with pairwise-distinct ids, whenever
aggregation succeeds the output has exactly one summary per checklist item,
in checklist order, and an item mentioned by no block keeps status
"Missing" with an empty matched-blocks list. -/
theorem compile_summary_completeness
    (c : List ChecklistItem) (results : List BlockResult) (out : List SummaryInfo)
    (hnd : (c.map (fun x => x.id)).Nodup)
    (hok : compile_summary c results = .ok out) :
    out.length = c.length ∧
    out.map (fun s => s.itemId) = c.map (fun x => x.id) ∧
    ∀ i, ∀ hi : i < c.length,
      (∀ blk ∈ results, ∀ st ∈ blk.evaluation, st.itemId ≠ (c.get ⟨i, hi⟩).id) →
      out.get? i = some ⟨(c.get ⟨i, hi⟩).id, "Missing", []⟩ := by
  have hout : out = c.map (fun it =>
      finalizeInfo (addRecs ⟨it.id, "Missing", []⟩ (recordsFor it.id results))) := by
    rw [compile_summary_ok_eq hok, initDict_eq_of_nodup c hnd, List.map_map]
    rfl
  refine ⟨by rw [hout]; simp, ?_, ?_⟩
  · rw [hout, List.map_map]
    simp [Function.comp, finalizeInfo_itemId, addRecs]
  · intro i hi hno
    have hrec : recordsFor (c.get ⟨i, hi⟩).id results = [] :=
      recordsFor_eq_nil (fun blk hblk st hst => hno blk hblk st hst)
    rw [hout, List.get?_map, List.get?_eq_get hi]
    simp only [Option.map_some']
    rw [hrec]
    rfl

/-- Witness for the amended C3 at the concrete demo run: the four
summaries carry the four checklist ids in order. -/
theorem compile_summary_completeness_witness :
    demoOut.map (fun s => s.itemId) = section_4_checklist.map (fun x => x.id) :=
  (compile_summary_completeness section_4_checklist demoResults demoOut
    (by decide) (by rfl)).2.1

theorem mergeEval_skip_missing {blockId : String} {it : ItemStatusR}
    (hs : it.status = "Missing") : ∀ (e1 e2 : List ItemStatusR) (d : SummaryDict),
    mergeEval blockId d (e1 ++ it :: e2) = mergeEval blockId d (e1 ++ e2) := by
  intro e1
  induction e1 with
  | nil =>
    intro e2 d
    rw [List.nil_append, List.nil_append, mergeEval,
      show mergeItem blockId d it = .ok d from by
        unfold mergeItem
        rw [if_pos (by simp [hs])]]
  | cons x rest ih =>
    intro e2 d
    rw [List.cons_append, List.cons_append, mergeEval, mergeEval]
    cases hmi : mergeItem blockId d x with
    | error e => rfl
    | ok dm => exact ih e2 dm

theorem mergeBlocks_cons (d : SummaryDict) (bid : String) (ev : List ItemStatusR)
    (rest : List BlockResult) :
    mergeBlocks d ((⟨bid, ev⟩ : BlockResult) :: rest)
      = match mergeEval bid d ev with
        | .ok d2 => mergeBlocks d2 rest
        | .error e => .error e := rfl

theorem mergeBlocks_cons_blk (d : SummaryDict) (blk : BlockResult)
    (rest : List BlockResult) :
    mergeBlocks d (blk :: rest)
      = match mergeEval blk.blockId d blk.evaluation with
        | .ok d2 => mergeBlocks d2 rest
        | .error e => .error e := rfl

theorem mergeBlocks_skip_missing {bid : String} {it : ItemStatusR}
    (hs : it.status = "Missing") (e1 e2 : List ItemStatusR) :
    ∀ (pre post : List BlockResult) (d : SummaryDict),
    mergeBlocks d (pre ++ (⟨bid, e1 ++ it :: e2⟩ : BlockResult) :: post)
      = mergeBlocks d (pre ++ (⟨bid, e1 ++ e2⟩ : BlockResult) :: post) := by
  intro pre
  induction pre with
  | nil =>
    intro post d
    rw [List.nil_append, List.nil_append, mergeBlocks_cons, mergeBlocks_cons,
      mergeEval_skip_missing hs e1 e2 d]
  | cons blk rest ih =>
    intro post d
    rw [List.cons_append, List.cons_append, mergeBlocks_cons_blk, mergeBlocks_cons_blk]
    cases hme : mergeEval blk.blockId d blk.evaluation with
    | error e => rfl
    | ok dm => exact ih post dm

/-- Counterexample to C4 as stated: the same run with an unknown-id entry
of status "Explicitly Mentioned" raises a KeyError, while without that
entry it succeeds — the entry is not ignored. -/
theorem compile_summary_unknown_id_cex :
    compile_summary section_4_checklist
        [⟨"BLOCK1", [⟨"9.9", "Explicitly Mentioned", some "x"⟩]⟩]
      = .error ("KeyError: 9.9") ∧
    compile_summary section_4_checklist [⟨"BLOCK1", []⟩]
      = .ok [⟨"4.1", "Missing", []⟩, ⟨"4.2", "Missing", []⟩,
             ⟨"4.3", "Missing", []⟩, ⟨"4.4", "Missing", []⟩] :=
  ⟨rfl, rfl⟩

/-- C4 amended: an entry whose status is "Missing" is skipped before any
id lookup, so removing it never changes the output (unknown id included);
but an entry with an unknown id and any other status makes the aggregator
fail with a key lookup error instead of being ignored. -/
theorem compile_summary_unknown_id_behavior :
    (∀ (c : List ChecklistItem) (pre post : List BlockResult) (bid : String)
        (e1 e2 : List ItemStatusR) (it : ItemStatusR), it.status = "Missing" →
        compile_summary c (pre ++ (⟨bid, e1 ++ it :: e2⟩ : BlockResult) :: post)
          = compile_summary c (pre ++ (⟨bid, e1 ++ e2⟩ : BlockResult) :: post)) ∧
    (∀ (c : List ChecklistItem) (results : List BlockResult) (blk : BlockResult)
        (it : ItemStatusR), blk ∈ results → it ∈ blk.evaluation →
        it.status ≠ "Missing" → it.itemId ∉ c.map (fun x => x.id) →
        ∃ e, compile_summary c results = .error e) := by
  constructor
  · intro c pre post bid e1 e2 it hs
    unfold compile_summary
    rw [mergeBlocks_skip_missing hs e1 e2 pre post (initDict c)]
  · intro c results blk it hblk hit hs hnk
    have hck : containsKey (initDict c) it.itemId = false := by
      cases hcc : containsKey (initDict c) it.itemId
      · rfl
      · exact absurd ((containsKey_initDict c it.itemId).mp hcc) hnk
    obtain ⟨e, he⟩ := mergeBlocks_err results (initDict c) blk it hblk hit hs hck
    refine ⟨e, ?_⟩
    unfold compile_summary
    rw [he]

/-- Witness for the amended C4: at a concrete run, a "Missing" entry with
the unknown id 4.9 is dropped without effect, and an "Explicitly
Mentioned" entry with the unknown id 9.9 makes the run fail. -/
theorem compile_summary_unknown_id_behavior_witness :
    compile_summary section_4_checklist
        ([] ++ (⟨"BLOCK1", [] ++ (⟨"4.9", "Missing", none⟩ : ItemStatusR) :: []⟩
          : BlockResult) :: [])
      = compile_summary section_4_checklist
        ([] ++ (⟨"BLOCK1", [] ++ ([] : List ItemStatusR)⟩ : BlockResult) :: []) ∧
    ∃ e, compile_summary section_4_checklist
        [⟨"BLOCK1", [⟨"9.9", "Explicitly Mentioned", some "x"⟩]⟩] = .error e :=
  ⟨compile_summary_unknown_id_behavior.1 section_4_checklist [] [] "BLOCK1" [] []
      ⟨"4.9", "Missing", none⟩ rfl,
   compile_summary_unknown_id_behavior.2 section_4_checklist
      [⟨"BLOCK1", [⟨"9.9", "Explicitly Mentioned", some "x"⟩]⟩]
      ⟨"BLOCK1", [⟨"9.9", "Explicitly Mentioned", some "x"⟩]⟩
      ⟨"9.9", "Explicitly Mentioned", some "x"⟩
      (by decide) (by decide) (by decide) (by decide)⟩

theorem compile_summary_ids_aux (c : List ChecklistItem) (results : List BlockResult)
    (out : List SummaryInfo) (hnd : (c.map (fun x => x.id)).Nodup)
    (hok : compile_summary c results = .ok out) :
    out.map (fun s => s.itemId) = c.map (fun x => x.id) := by
  have hout : out = c.map (fun it =>
      finalizeInfo (addRecs ⟨it.id, "Missing", []⟩ (recordsFor it.id results))) := by
    rw [compile_summary_ok_eq hok, initDict_eq_of_nodup c hnd, List.map_map]
    rfl
  rw [hout, List.map_map]
  simp [Function.comp, finalizeInfo_itemId, addRecs]

theorem runLoop_nil (i : Nat) : runLoop i [] = [] := rfl

theorem runLoop_none (i : Nat) (rest : List (Option BlockDict)) :
    runLoop i (none :: rest) = runLoop (i + 1) rest := rfl

theorem runLoop_some (i : Nat) (bd : BlockDict) (rest : List (Option BlockDict)) :
    runLoop i (some bd :: rest)
      = ("BLOCK" ++ toString i, bd) :: runLoop (i + 1) rest := rfl

theorem runLoop_append : ∀ (xs ys : List (Option BlockDict)) (i : Nat),
    runLoop i (xs ++ ys) = runLoop i xs ++ runLoop (i + xs.length) ys := by
  intro xs
  induction xs with
  | nil =>
    intro ys i
    simp [runLoop_nil]
  | cons x rest ih =>
    intro ys i
    cases x with
    | none =>
      rw [List.cons_append, runLoop_none, runLoop_none, ih ys (i + 1), List.length_cons]
      have hn : i + 1 + rest.length = i + (rest.length + 1) := by omega
      rw [hn]
    | some bd =>
      rw [List.cons_append, runLoop_some, runLoop_some, ih ys (i + 1), List.length_cons,
        List.cons_append]
      have hn : i + 1 + rest.length = i + (rest.length + 1) := by omega
      rw [hn]

theorem runLoop_mem : ∀ (xs : List (Option BlockDict)) (i k : Nat) (bd : BlockDict),
    xs.get? k = some (some bd) →
    ("BLOCK" ++ toString (i + k), bd) ∈ runLoop i xs := by
  intro xs
  induction xs with
  | nil =>
    intro i k bd h
    simp at h
  | cons x rest ih =>
    intro i k bd h
    cases k with
    | zero =>
      simp at h
      subst h
      rw [runLoop_some]
      simp
    | succ k2 =>
      have h2 : rest.get? k2 = some (some bd) := by simpa using h
      have hmem := ih (i + 1) k2 bd h2
      have hn : i + 1 + k2 = i + (k2 + 1) := by omega
      rw [hn] at hmem
      cases x with
      | none =>
        rw [runLoop_none]
        exact hmem
      | some bd2 =>
        rw [runLoop_some]
        exact List.mem_cons_of_mem _ hmem

theorem mergeBlocksRaw_cons_wf (d : SummaryDict) (bid : String) (ev : ParsedEval)
    (rest : List (String × BlockDict)) :
    mergeBlocksRaw d ((bid, BlockDict.wellFormed ev) :: rest)
      = match mergeEval bid d ev with
        | .ok d2 => mergeBlocksRaw d2 rest
        | .error e => .error e := rfl

theorem mergeBlocksRaw_cons_mal (d : SummaryDict) (bid : String)
    (rest : List (String × BlockDict)) :
    mergeBlocksRaw d ((bid, BlockDict.malformed) :: rest)
      = .error ("KeyError: Checklist Evaluation") := rfl

theorem mergeBlocksRaw_wf : ∀ (blocks : List (String × BlockDict)) (d : SummaryDict),
    (∀ p ∈ blocks, ∃ ev, p.2 = BlockDict.wellFormed ev) →
    mergeBlocksRaw d blocks
      = mergeBlocks d (blocks.map (fun p => ⟨p.1, evalOf p.2⟩)) := by
  intro blocks
  induction blocks with
  | nil =>
    intro d _
    rfl
  | cons p rest ih =>
    intro d hwf
    obtain ⟨bid, bd⟩ := p
    obtain ⟨ev, hev⟩ := hwf (bid, bd) (by simp)
    simp at hev
    subst hev
    rw [List.map_cons]
    show mergeBlocksRaw d ((bid, BlockDict.wellFormed ev) :: rest)
      = mergeBlocks d ((⟨bid, ev⟩ : BlockResult) :: rest.map (fun p => ⟨p.1, evalOf p.2⟩))
    rw [mergeBlocksRaw_cons_wf, mergeBlocks_cons]
    cases hme : mergeEval bid d ev with
    | error e => rfl
    | ok d2 => exact ih d2 (fun q hq => hwf q (by simp [hq]))

theorem mergeBlocksRaw_err : ∀ (blocks : List (String × BlockDict)) (d : SummaryDict)
    (bid : String), (bid, BlockDict.malformed) ∈ blocks →
    ∃ e, mergeBlocksRaw d blocks = .error e := by
  intro blocks
  induction blocks with
  | nil =>
    intro d bid h
    simp at h
  | cons p rest ih =>
    intro d bid h
    obtain ⟨bid2, bd⟩ := p
    cases bd with
    | malformed => exact ⟨_, mergeBlocksRaw_cons_mal d bid2 rest⟩
    | wellFormed ev =>
      have h2 : (bid, BlockDict.malformed) ∈ rest := by
        rcases List.mem_cons.mp h with he | h2
        · simp at he
        · exact h2
      rw [mergeBlocksRaw_cons_wf]
      cases hme : mergeEval bid2 d ev with
      | error e => exact ⟨e, rfl⟩
      | ok d2 => exact ih d2 bid h2

theorem compile_summary_raw_wf (c : List ChecklistItem)
    (blocks : List (String × BlockDict))
    (hwf : ∀ p ∈ blocks, ∃ ev, p.2 = BlockDict.wellFormed ev) :
    compile_summary_raw c blocks
      = compile_summary c (blocks.map (fun p => ⟨p.1, evalOf p.2⟩)) := by
  unfold compile_summary_raw compile_summary
  rw [mergeBlocksRaw_wf blocks (initDict c) hwf]

theorem compile_summary_raw_err (c : List ChecklistItem)
    (blocks : List (String × BlockDict)) (bid : String)
    (h : (bid, BlockDict.malformed) ∈ blocks) :
    ∃ e, compile_summary_raw c blocks = .error e := by
  obtain ⟨e, he⟩ := mergeBlocksRaw_err blocks (initDict c) bid h
  refine ⟨e, ?_⟩
  unfold compile_summary_raw
  rw [he]

/-- Counterexample to C8 as stated: a response that is a valid JSON dict
but lacks the expected structure is NOT excluded from aggregation — it is
appended (app_run.py line 153) before its `Checklist Evaluation` is ever
read (line 156) — and the later summary step (line 165, outside every
`try`) raises an uncaught KeyError at line 107, aborting the run with no
summaries even though block 1 parsed fine. -/
theorem run_loop_failure_containment_cex :
    ("BLOCK2", BlockDict.malformed)
      ∈ all_block_results
          [some (BlockDict.wellFormed demoEval1), some BlockDict.malformed] ∧
    runComplianceCheck [some (BlockDict.wellFormed demoEval1), some BlockDict.malformed]
      = .error ("KeyError: Checklist Evaluation") := by
  constructor
  · decide
  · rfl

/-- C8 amended: a response whose failure surfaces before the append — not
valid JSON, or a parsed value that is not a dict, so tagging it with the
block id raises — is excluded from aggregation, every appended dict keeps
its original BLOCK index, and when every appended dict is structurally
well-formed, the summary step runs `compile_summary` on exactly those
blocks findings (one summary per checklist item when it succeeds).  But a
response that parses to a dict without the expected structure is appended,
and its presence makes the summary step fail with an uncaught key error:
the run aborts with no summaries. -/
theorem run_loop_failure_containment (pre post : List (Option BlockDict)) :
    all_block_results (pre ++ none :: post)
        = runLoop 1 pre ++ runLoop (pre.length + 2) post ∧
    (∀ k bd, pre.get? k = some (some bd) →
        ("BLOCK" ++ toString (1 + k), bd) ∈ all_block_results (pre ++ none :: post)) ∧
    (∀ k bd, post.get? k = some (some bd) →
        ("BLOCK" ++ toString (pre.length + 2 + k), bd)
          ∈ all_block_results (pre ++ none :: post)) ∧
    ((∀ p ∈ all_block_results (pre ++ none :: post),
        ∃ ev, p.2 = BlockDict.wellFormed ev) →
      runComplianceCheck (pre ++ none :: post)
        = compile_summary section_4_checklist
            ((all_block_results (pre ++ none :: post)).map
              (fun p => ⟨p.1, evalOf p.2⟩)) ∧
      ∀ out, runComplianceCheck (pre ++ none :: post) = .ok out →
        out.map (fun s => s.itemId) = ["4.1", "4.2", "4.3", "4.4"]) ∧
    (∀ bid, (bid, BlockDict.malformed) ∈ all_block_results (pre ++ none :: post) →
      ∃ e, runComplianceCheck (pre ++ none :: post) = .error e) := by
  have heq : all_block_results (pre ++ none :: post)
      = runLoop 1 pre ++ runLoop (pre.length + 2) post := by
    rw [all_block_results, runLoop_append pre (none :: post) 1, runLoop_none]
    have hn : 1 + pre.length + 1 = pre.length + 2 := by omega
    rw [hn]
  refine ⟨heq, ?_, ?_, ?_, ?_⟩
  · intro k bd h
    rw [heq]
    exact List.mem_append_left _ (runLoop_mem pre 1 k bd h)
  · intro k bd h
    rw [heq]
    exact List.mem_append_right _ (runLoop_mem post (pre.length + 2) k bd h)
  · intro hwf
    constructor
    · exact compile_summary_raw_wf section_4_checklist _ hwf
    · intro out hok
      unfold runComplianceCheck at hok
      rw [compile_summary_raw_wf section_4_checklist _ hwf] at hok
      rw [compile_summary_ids_aux section_4_checklist _ out (by decide) hok]
      rfl
  · intro bid h
    obtain ⟨e, he⟩ := compile_summary_raw_err section_4_checklist _ bid h
    exact ⟨e, he⟩

/-- Witness for the amended C8: with the second of three responses failing
before the append, the third block keeps its original id BLOCK3; and a run
whose appended second dict is structurally malformed aborts with an error. -/
theorem run_loop_failure_containment_witness :
    ("BLOCK" ++ toString (([some (BlockDict.wellFormed demoEval1)]
        : List (Option BlockDict)).length + 2 + 0), BlockDict.wellFormed demoEval2)
      ∈ all_block_results ([some (BlockDict.wellFormed demoEval1)]
          ++ none :: [some (BlockDict.wellFormed demoEval2)]) ∧
    (∃ e, runComplianceCheck ([some (BlockDict.wellFormed demoEval1)]
          ++ none :: [some BlockDict.malformed]) = .error e) :=
  ⟨(run_loop_failure_containment [some (BlockDict.wellFormed demoEval1)]
      [some (BlockDict.wellFormed demoEval2)]).2.2.1 0 (BlockDict.wellFormed demoEval2) rfl,
   (run_loop_failure_containment [some (BlockDict.wellFormed demoEval1)]
      [some BlockDict.malformed]).2.2.2.2 "BLOCK3" (by decide)⟩

theorem collectResults_eq_filterMap : ∀ responses : List (Option SectionResult),
    collectResults responses = responses.filterMap id := by
  intro responses
  induction responses with
  | nil => rfl
  | cons x rest ih =>
    cases x with
    | none => simp [collectResults, ih]
    | some r => simp [collectResults, ih]

/-- C9: compliance-score formula — the section loop collects exactly the
successfully parsed results, and when at least one section parsed, the
displayed score is the sum of their Compliance Points times 100 divided by
the number of successfully parsed sections (failed sections contribute to
neither the sum nor the count). -/
theorem compliance_score_formula (responses : List (Option SectionResult)) :
    collectResults responses = responses.filterMap id ∧
    (collectResults responses ≠ [] →
      complianceScore (collectResults responses)
        = ((responses.filterMap id).map (fun r => r.compliancePoints)).sum * 100
          / ((responses.filterMap id).length : ℚ)) := by
  refine ⟨collectResults_eq_filterMap responses, ?_⟩
  intro _
  rw [collectResults_eq_filterMap responses, complianceScore, div_mul_eq_mul_div]

/-- Witness for C9 at the demo responses (sections scoring 1 and 1/2 parse,
one section fails): the displayed score is computed from the two parsed
sections alone. -/
theorem compliance_score_formula_witness :
    complianceScore (collectResults demoResponses)
      = ((demoResponses.filterMap id).map (fun r => r.compliancePoints)).sum * 100
        / ((demoResponses.filterMap id).length : ℚ) :=
  (compliance_score_formula demoResponses).2 (by decide)

theorem mem_takeWhile {p : Char → Bool} : ∀ (l : List Char) (d : Char),
    d ∈ l.takeWhile p → p d = true := by
  intro l
  induction l with
  | nil =>
    intro d h
    simp at h
  | cons x t ih =>
    intro d h
    by_cases hx : p x = true
    · rw [List.takeWhile_cons_of_pos hx] at h
      rcases List.mem_cons.mp h with rfl | h2
      · exact hx
      · exact ih d h2
    · rw [List.takeWhile_cons_of_neg (by simpa using hx)] at h
      simp at h

theorem takeWhile_dropWhile_append {p : Char → Bool} : ∀ (ds : List Char) (x : Char)
    (ys : List Char), (∀ d ∈ ds, p d = true) → p x = false →
    (ds ++ x :: ys).takeWhile p = ds ∧ (ds ++ x :: ys).dropWhile p = x :: ys := by
  intro ds
  induction ds with
  | nil =>
    intro x ys _ hx
    rw [List.nil_append]
    constructor
    · rw [List.takeWhile_cons_of_neg (by simp [hx])]
    · rw [List.dropWhile_cons_of_neg (by simp [hx])]
  | cons d ds2 ih =>
    intro x ys hall hx
    have hrest := ih x ys (fun e he => hall e (by simp [he])) hx
    rw [List.cons_append]
    constructor
    · rw [List.takeWhile_cons_of_pos (hall d (by simp)), hrest.1]
    · rw [List.dropWhile_cons_of_pos (hall d (by simp)), hrest.2]

/-- Counterexample to C2 as stated: the stripped line "The quick brown
fox" starts a new block under the code's regex — its first character is an
uppercase letter and the rest are letters and spaces — although it
contains lowercase-only words and carries no numeric marker, so the
heading predicate the claim describes rejects it. -/
theorem heading_predicate_cex :
    isHeadingLine ("The quick brown fox".toList) = true ∧
    specClaimHeading ("The quick brown fox".toList) = false := by
  decide

/-- C2 amended: a stripped line starts a new block iff it matches the
code's pattern — (a) an uppercase ASCII letter followed by at least one
more character, every following character being an ASCII letter of either
case or whitespace; or (b) one or more ASCII digits, a period, and a
whitespace character, followed by anything. -/
theorem heading_predicate_amended (s : List Char) :
    isHeadingLine s = true ↔ HeadingShape s := by
  unfold HeadingShape
  rw [isHeadingLine, Bool.or_eq_true]
  apply or_congr
  · constructor
    · intro h
      cases s with
      | nil => simp [regexAltA] at h
      | cons c rest =>
        simp [regexAltA] at h
        exact ⟨c, rest, rfl, h.1.1, h.1.2, h.2⟩
    · rintro ⟨c, rest, rfl, hc, hne, hall⟩
      simp [regexAltA, hc, hne]
      exact hall
  · constructor
    · intro h
      rw [regexAltB, Bool.and_eq_true] at h
      obtain ⟨hne, hm⟩ := h
      cases hdrop : s.dropWhile isDigit09 with
      | nil =>
        rw [hdrop] at hm
        simp at hm
      | cons a rest2 =>
        cases rest2 with
        | nil =>
          rw [hdrop] at hm
          simp at hm
        | cons b t =>
          rw [hdrop] at hm
          simp at hm
          have hs : s = s.takeWhile isDigit09 ++ s.dropWhile isDigit09 :=
            (List.takeWhile_append_dropWhile isDigit09 s).symm
          rw [hdrop, hm.1] at hs
          refine ⟨s.takeWhile isDigit09, b, t, hs, ?_, ?_, hm.2⟩
          · intro he
            rw [he] at hne
            simp at hne
          · intro d hd
            exact mem_takeWhile s d hd
    · rintro ⟨ds, cch, rest, rfl, hds, hdig, hsp⟩
      obtain ⟨ht, hd⟩ :=
        takeWhile_dropWhile_append ds '.' (cch :: rest) hdig (by decide)
      rw [regexAltB, ht, hd]
      simp [hsp, (isEmpty_false_iff ds).mpr hds]
